import Mathlib

/-!
Verification of the e-paper rendering pipeline of
`src/hal/sdl2/app_hal.c` (Floyd–Steinberg dithering in `dither_image`
and the LVGL flush callback `flush_cb`).  Grayscale buffers are
modelled as total functions `Nat → Int` (row-major, one byte per
pixel) and the SDL ARGB pixel buffer as `Nat → Nat`; the machine
arithmetic that matters is modelled explicitly: the `uint32_t`
width/height conversion as `% 2^32`, and C's truncating integer
division as `Int.tdiv`.
-/

/-! ## Floyd–Steinberg dithering (`dither_image`, app_hal.c:34-64) -/

/-- Pointwise update of a grayscale buffer (a C array store). -/
def upd (f : Nat → Int) (i : Nat) (v : Int) : Nat → Int :=
  fun j => if j = i then v else f j

/-- The clamping expression `(X > 255 ? 255 : (X < 0 ? 0 : X))` used by
`dither_image` on every error-diffusion target. -/
def clampByte (v : Int) : Int :=
  if 255 < v then 255 else if v < 0 then 0 else v

/-- The threshold `(oldPixel < 128) ? 0 : 255` of `dither_image`. -/
def quantize (v : Int) : Int :=
  if v < 128 then 0 else 255

/-- Source line 50-51: `if (x + 1 < width) pixels[y*width + x+1] += error*7/16`
(with the clamp spelled out). -/
def diffuse1 (p : Nat → Int) (w x y : Nat) (error : Int) : Nat → Int :=
  if x + 1 < w then
    upd p (y * w + (x + 1))
      (clampByte (p (y * w + (x + 1)) + Int.tdiv (error * 7) 16))
  else p

/-- Source line 54-55: `if (x > 0) pixels[(y+1)*width + x-1] += error*3/16`. -/
def diffuse2 (p : Nat → Int) (w x y : Nat) (error : Int) : Nat → Int :=
  if 0 < x then
    upd p ((y + 1) * w + (x - 1))
      (clampByte (p ((y + 1) * w + (x - 1)) + Int.tdiv (error * 3) 16))
  else p

/-- Source line 57: `pixels[(y+1)*width + x] += error*5/16` (unguarded
inside the `y + 1 < height` block). -/
def diffuse3 (p : Nat → Int) (w x y : Nat) (error : Int) : Nat → Int :=
  upd p ((y + 1) * w + x)
    (clampByte (p ((y + 1) * w + x) + Int.tdiv (error * 5) 16))

/-- Source line 59-60: `if (x + 1 < width) pixels[(y+1)*width + x+1] += error*1/16`. -/
def diffuse4 (p : Nat → Int) (w x y : Nat) (error : Int) : Nat → Int :=
  if x + 1 < w then
    upd p ((y + 1) * w + (x + 1))
      (clampByte (p ((y + 1) * w + (x + 1)) + Int.tdiv (error * 1) 16))
  else p

/-- One iteration of the double loop of `dither_image`
(app_hal.c:38-61): quantize the pixel at `(x, y)`, store it, then
diffuse the rounding error to the guarded neighbours in source order.
The three below-row diffusions happen only when `y + 1 < height`. -/
def diffuseAt (p : Nat → Int) (w h x y : Nat) : Nat → Int :=
  let oldPixel := p (y * w + x)
  let newPixel := quantize oldPixel
  let error := oldPixel - newPixel
  let p0 := upd p (y * w + x) newPixel
  let p1 := diffuse1 p0 w x y error
  if y + 1 < h then diffuse4 (diffuse3 (diffuse2 p1 w x y error) w x y error) w x y error
  else p1

/-- The inner `for (x = 0; x < n; x++)` loop of `dither_image`,
processing the first `n` columns of row `y`. -/
def ditherCols (p : Nat → Int) (w h y : Nat) : Nat → Nat → Int
  | 0 => p
  | n + 1 => diffuseAt (ditherCols p w h y n) w h n y

/-- The outer `for (y = 0; y < m; y++)` loop of `dither_image`,
processing the first `m` rows. -/
def ditherRows (p : Nat → Int) (w h : Nat) : Nat → Nat → Int
  | 0 => p
  | m + 1 => ditherCols (ditherRows p w h m) w h m w

/-- `dither_image(pixels, width, height)` of app_hal.c:34. -/
def dither_image (p : Nat → Int) (w h : Nat) : Nat → Int :=
  ditherRows p w h h

/-- The 1×5 grayscale row `[0, 64, 128, 192, 255]` of spec Scenario C. -/
def rowC : Nat → Int :=
  fun j =>
    if j = 0 then 0 else if j = 1 then 64 else if j = 2 then 128
    else if j = 3 then 192 else if j = 4 then 255 else 0

/-- A sample buffer holding only the two panel colors, used to
exercise idempotence on already-binary data. -/
def binMix : Nat → Int :=
  fun j => if j % 2 = 0 then 0 else 255

/-! ## The LVGL flush callback (`flush_cb`, app_hal.c:66-125)

The panel-wide SDL pixel buffer is `Nat → Nat` (one ARGB word per
pixel, `SDL_HOR_RES = SDL_VER_RES = 200`).  `bright j` models
`lv_color_brightness(px_map[j])` (an LVGL library call, external to
this repository); its `uint8_t` result type is modelled by `% 256`.
`bufNull` models `pixel_buffer == NULL`, and `texOk` models the return
status of `SDL_UpdateTexture` (external SDL behaviour).  The record
counts, for one call, how often `lv_disp_flush_ready`,
`SDL_UpdateTexture` and `SDL_RenderPresent` were invoked. -/

/-- Pointwise update of the ARGB pixel buffer. -/
def updN (f : Nat → Nat) (i : Nat) (v : Nat) : Nat → Nat :=
  fun j => if j = i then v else f j

/-- Source line 105: `0xFF000000 | (brightness << 16) | (brightness << 8) | brightness`. -/
def sdl_color (brightness : Nat) : Nat :=
  0xFF000000 ||| (brightness <<< 16) ||| (brightness <<< 8) ||| brightness

/-- The body of the double loop of `flush_cb` (app_hal.c:91-108): one
pixel of the flushed area, written only when its global coordinates
pass the bounds check `px >= 0 && px < 200 && py >= 0 && py < 200`. -/
def drawPixel (buf : Nat → Nat) (x1 y1 : Int) (w : Nat) (bright : Nat → Nat)
    (x y : Nat) : Nat → Nat :=
  let px : Int := x1 + x
  let py : Int := y1 + y
  if 0 ≤ px ∧ px < 200 ∧ 0 ≤ py ∧ py < 200 then
    updN buf (py * 200 + px).toNat (sdl_color (bright (y * w + x) % 256))
  else buf

/-- The inner `for (x = 0; x < n; x++)` loop of `flush_cb`. -/
def drawCols (buf : Nat → Nat) (x1 y1 : Int) (w : Nat) (bright : Nat → Nat)
    (y : Nat) : Nat → Nat → Nat
  | 0 => buf
  | n + 1 => drawPixel (drawCols buf x1 y1 w bright y n) x1 y1 w bright n y

/-- The outer `for (y = 0; y < m; y++)` loop of `flush_cb`. -/
def drawRows (buf : Nat → Nat) (x1 y1 : Int) (w : Nat) (bright : Nat → Nat) :
    Nat → Nat → Nat
  | 0 => buf
  | m + 1 => drawCols (drawRows buf x1 y1 w bright m) x1 y1 w bright m w

/-- `(uint32_t)(b - a + 1)`: the width/height computation of
app_hal.c:68-69, with the int-to-uint32 conversion made explicit. -/
def uDim (a b : Int) : Nat :=
  ((b - a + 1) % 4294967296).toNat

/-- Observable outcome of one `flush_cb` call. -/
structure FlushOut where
  buffer : Nat → Nat
  ready : Nat
  texUpdates : Nat
  presents : Nat

/-- `flush_cb(disp_drv, area, px_map)` of app_hal.c:66-125.  The four
code paths: invalid dimensions (line 72-76), NULL pixel buffer (line
82-86), texture-update failure (line 113-117), and the normal path
(line 119-124).  Every path ends in `lv_disp_flush_ready`. -/
def flush_cb (bufNull : Bool) (buf : Nat → Nat) (texOk : Bool)
    (x1 y1 x2 y2 : Int) (bright : Nat → Nat) : FlushOut :=
  let w := uDim x1 x2
  let h := uDim y1 y2
  if w = 0 ∨ h = 0 ∨ 200 < w ∨ 200 < h then
    { buffer := buf, ready := 1, texUpdates := 0, presents := 0 }
  else if bufNull then
    { buffer := buf, ready := 1, texUpdates := 0, presents := 0 }
  else
    let buf2 := drawRows buf x1 y1 w bright h
    if texOk then
      { buffer := buf2, ready := 1, texUpdates := 1, presents := 1 }
    else
      { buffer := buf2, ready := 1, texUpdates := 1, presents := 0 }

/-! ## Basic lemmas -/

theorem upd_self (f : Nat → Int) (i : Nat) (v : Int) : upd f i v i = v := by
  simp [upd]

theorem upd_ne (f : Nat → Int) (i : Nat) (v : Int) (j : Nat) (hj : j ≠ i) :
    upd f i v j = f j := by
  simp [upd, hj]

theorem updN_self (f : Nat → Nat) (i v : Nat) : updN f i v i = v := by
  simp [updN]

theorem updN_ne (f : Nat → Nat) (i v j : Nat) (hj : j ≠ i) :
    updN f i v j = f j := by
  simp [updN, hj]

theorem quantize_binary (v : Int) : quantize v = 0 ∨ quantize v = 255 := by
  unfold quantize; split <;> simp

theorem quantize_fix (v : Int) (hv : v = 0 ∨ v = 255) : quantize v = v := by
  rcases hv with h | h <;> simp [quantize, h]

theorem clampByte_id (v : Int) (h0 : 0 ≤ v) (h1 : v ≤ 255) : clampByte v = v := by
  unfold clampByte; split_ifs <;> omega

/-- A region-local pixel index is inside the region's linear range. -/
theorem idx_lt (w h x y : Nat) (hx : x < w) (hy : y < h) : y * w + x < w * h := by
  have h1 : y * w + x < (y + 1) * w := by
    have : (y + 1) * w = y * w + w := by ring
    omega
  have h2 : (y + 1) * w ≤ h * w := Nat.mul_le_mul_right _ hy
  have h3 : h * w = w * h := Nat.mul_comm h w
  omega

/-! ## Locality of one dithering step -/

theorem diffuse1_ne (p : Nat → Int) (w x y : Nat) (e : Int) (j : Nat)
    (hj : x + 1 < w → j ≠ y * w + (x + 1)) :
    diffuse1 p w x y e j = p j := by
  unfold diffuse1
  split_ifs with hg
  · exact upd_ne _ _ _ _ (hj hg)
  · rfl

theorem diffuse1_eq (p : Nat → Int) (w x y : Nat) (e : Int) (hg : x + 1 < w) :
    diffuse1 p w x y e (y * w + (x + 1)) =
      clampByte (p (y * w + (x + 1)) + Int.tdiv (e * 7) 16) := by
  unfold diffuse1
  rw [if_pos hg, upd_self]

theorem diffuse2_ne (p : Nat → Int) (w x y : Nat) (e : Int) (j : Nat)
    (hj : 0 < x → j ≠ (y + 1) * w + (x - 1)) :
    diffuse2 p w x y e j = p j := by
  unfold diffuse2
  split_ifs with hg
  · exact upd_ne _ _ _ _ (hj hg)
  · rfl

theorem diffuse2_eq (p : Nat → Int) (w x y : Nat) (e : Int) (hg : 0 < x) :
    diffuse2 p w x y e ((y + 1) * w + (x - 1)) =
      clampByte (p ((y + 1) * w + (x - 1)) + Int.tdiv (e * 3) 16) := by
  unfold diffuse2
  rw [if_pos hg, upd_self]

theorem diffuse3_ne (p : Nat → Int) (w x y : Nat) (e : Int) (j : Nat)
    (hj : j ≠ (y + 1) * w + x) :
    diffuse3 p w x y e j = p j :=
  upd_ne _ _ _ _ hj

theorem diffuse3_eq (p : Nat → Int) (w x y : Nat) (e : Int) :
    diffuse3 p w x y e ((y + 1) * w + x) =
      clampByte (p ((y + 1) * w + x) + Int.tdiv (e * 5) 16) :=
  upd_self _ _ _

theorem diffuse4_ne (p : Nat → Int) (w x y : Nat) (e : Int) (j : Nat)
    (hj : x + 1 < w → j ≠ (y + 1) * w + (x + 1)) :
    diffuse4 p w x y e j = p j := by
  unfold diffuse4
  split_ifs with hg
  · exact upd_ne _ _ _ _ (hj hg)
  · rfl

theorem diffuse4_eq (p : Nat → Int) (w x y : Nat) (e : Int) (hg : x + 1 < w) :
    diffuse4 p w x y e ((y + 1) * w + (x + 1)) =
      clampByte (p ((y + 1) * w + (x + 1)) + Int.tdiv (e * 1) 16) := by
  unfold diffuse4
  rw [if_pos hg, upd_self]

/-- Processing pixel `(x, y)` leaves every index outside its five
write targets unchanged. -/
theorem diffuseAt_untouched (p : Nat → Int) (w h x y j : Nat)
    (h1 : j ≠ y * w + x)
    (h2 : ¬(x + 1 < w ∧ j = y * w + (x + 1)))
    (h3 : ¬(y + 1 < h ∧ 0 < x ∧ j = (y + 1) * w + (x - 1)))
    (h4 : ¬(y + 1 < h ∧ j = (y + 1) * w + x))
    (h5 : ¬(y + 1 < h ∧ x + 1 < w ∧ j = (y + 1) * w + (x + 1))) :
    diffuseAt p w h x y j = p j := by
  simp only [diffuseAt]
  split_ifs with hy1
  · rw [diffuse4_ne, diffuse3_ne, diffuse2_ne, diffuse1_ne, upd_ne] <;>
      (intros; omega)
  · rw [diffuse1_ne, upd_ne] <;> (intros; omega)

/-- Processing pixel `(x, y)` stores the threshold of its current
(error-accumulated) value at its own index. -/
theorem diffuseAt_at_i (p : Nat → Int) (w h x y : Nat) (hx : x < w) :
    diffuseAt p w h x y (y * w + x) = quantize (p (y * w + x)) := by
  have hd : (y + 1) * w = y * w + w := by ring
  simp only [diffuseAt]
  split_ifs with hy1
  · rw [diffuse4_ne, diffuse3_ne, diffuse2_ne, diffuse1_ne, upd_self] <;>
      (intros; omega)
  · rw [diffuse1_ne, upd_self] <;> (intros; omega)

/-! ## Loop-level frame and invariant lemmas -/

/-- The inner loop never writes at or beyond the end of the region. -/
theorem ditherCols_ge (p : Nat → Int) (w h y n : Nat) (hn : n ≤ w) (hy : y < h)
    (j : Nat) (hj : w * h ≤ j) : ditherCols p w h y n j = p j := by
  induction n with
  | zero => rfl
  | succ n ih =>
    simp only [ditherCols]
    rw [diffuseAt_untouched]
    · exact ih (by omega)
    · have := idx_lt w h n y (by omega) hy
      omega
    · rintro ⟨hg, hEq⟩
      have := idx_lt w h (n + 1) y hg hy
      omega
    · rintro ⟨hgy, hg0, hEq⟩
      have := idx_lt w h (n - 1) (y + 1) (by omega) hgy
      omega
    · rintro ⟨hgy, hEq⟩
      have := idx_lt w h n (y + 1) (by omega) hgy
      omega
    · rintro ⟨hgy, hg, hEq⟩
      have := idx_lt w h (n + 1) (y + 1) hg hgy
      omega

/-- The outer loop never writes at or beyond the end of the region. -/
theorem ditherRows_ge (p : Nat → Int) (w h m : Nat) (hm : m ≤ h) (j : Nat)
    (hj : w * h ≤ j) : ditherRows p w h m j = p j := by
  induction m with
  | zero => rfl
  | succ m ih =>
    simp only [ditherRows]
    rw [ditherCols_ge _ _ _ _ w le_rfl (by omega) j hj]
    exact ih (by omega)

/-- After the inner loop has processed `n` columns of row `y`, every
already-processed index of the buffer holds `0` or `255`. -/
theorem ditherCols_binary (p : Nat → Int) (w h y n : Nat) (hn : n ≤ w)
    (hbase : ∀ j, j < y * w → p j = 0 ∨ p j = 255) :
    ∀ j, j < y * w + n →
      ditherCols p w h y n j = 0 ∨ ditherCols p w h y n j = 255 := by
  have hd : (y + 1) * w = y * w + w := by ring
  induction n with
  | zero => intro j hj; exact hbase j (by omega)
  | succ n ih =>
    intro j hj
    simp only [ditherCols]
    rcases Nat.lt_or_ge j (y * w + n) with hlt | hge
    · rw [diffuseAt_untouched]
      · exact ih (by omega) j hlt
      · omega
      · omega
      · omega
      · omega
      · omega
    · have hje : j = y * w + n := by omega
      rw [hje, diffuseAt_at_i _ _ _ _ _ (by omega)]
      exact quantize_binary _

/-- After the outer loop has processed `m` rows, every index of those
rows holds `0` or `255`. -/
theorem ditherRows_binary (p : Nat → Int) (w h m : Nat) :
    ∀ j, j < m * w →
      ditherRows p w h m j = 0 ∨ ditherRows p w h m j = 255 := by
  induction m with
  | zero => intro j hj; omega
  | succ m ih =>
    intro j hj
    have hd : (m + 1) * w = m * w + w := by ring
    simp only [ditherRows]
    exact ditherCols_binary (ditherRows p w h m) w h m w le_rfl
      (fun k hk => ih k hk) j (by omega)

/-! ## The dithering step reads only the region -/

theorem diffuse1_rel (p q : Nat → Int) (w h x y : Nat) (e f : Int)
    (hef : e = f) (hpq : ∀ j, j < w * h → p j = q j)
    (ht : x + 1 < w → y * w + (x + 1) < w * h) :
    ∀ j, j < w * h → diffuse1 p w x y e j = diffuse1 q w x y f j := by
  intro j hj
  subst hef
  unfold diffuse1
  split_ifs with hg
  · unfold upd
    by_cases hje : j = y * w + (x + 1)
    · simp only [hje, if_pos rfl, hpq _ (ht hg)]
    · simp only [if_neg hje]
      exact hpq j hj
  · exact hpq j hj

theorem diffuse2_rel (p q : Nat → Int) (w h x y : Nat) (e f : Int)
    (hef : e = f) (hpq : ∀ j, j < w * h → p j = q j)
    (ht : 0 < x → (y + 1) * w + (x - 1) < w * h) :
    ∀ j, j < w * h → diffuse2 p w x y e j = diffuse2 q w x y f j := by
  intro j hj
  subst hef
  unfold diffuse2
  split_ifs with hg
  · unfold upd
    by_cases hje : j = (y + 1) * w + (x - 1)
    · simp only [hje, if_pos rfl, hpq _ (ht hg)]
    · simp only [if_neg hje]
      exact hpq j hj
  · exact hpq j hj

theorem diffuse3_rel (p q : Nat → Int) (w h x y : Nat) (e f : Int)
    (hef : e = f) (hpq : ∀ j, j < w * h → p j = q j)
    (ht : (y + 1) * w + x < w * h) :
    ∀ j, j < w * h → diffuse3 p w x y e j = diffuse3 q w x y f j := by
  intro j hj
  subst hef
  unfold diffuse3 upd
  by_cases hje : j = (y + 1) * w + x
  · simp only [hje, if_pos rfl, hpq _ ht]
  · simp only [if_neg hje]
    exact hpq j hj

theorem diffuse4_rel (p q : Nat → Int) (w h x y : Nat) (e f : Int)
    (hef : e = f) (hpq : ∀ j, j < w * h → p j = q j)
    (ht : x + 1 < w → (y + 1) * w + (x + 1) < w * h) :
    ∀ j, j < w * h → diffuse4 p w x y e j = diffuse4 q w x y f j := by
  intro j hj
  subst hef
  unfold diffuse4
  split_ifs with hg
  · unfold upd
    by_cases hje : j = (y + 1) * w + (x + 1)
    · simp only [hje, if_pos rfl, hpq _ (ht hg)]
    · simp only [if_neg hje]
      exact hpq j hj
  · exact hpq j hj

/-- Processing one pixel depends only on the buffer contents inside
the region: buffers that agree on the region still agree after the
step. -/
theorem diffuseAt_rel (p q : Nat → Int) (w h x y : Nat) (hx : x < w) (hy : y < h)
    (hpq : ∀ j, j < w * h → p j = q j) :
    ∀ j, j < w * h → diffuseAt p w h x y j = diffuseAt q w h x y j := by
  have hi : y * w + x < w * h := idx_lt w h x y hx hy
  have he : p (y * w + x) - quantize (p (y * w + x)) =
      q (y * w + x) - quantize (q (y * w + x)) := by rw [hpq _ hi]
  have h0 : ∀ j, j < w * h →
      upd p (y * w + x) (quantize (p (y * w + x))) j =
        upd q (y * w + x) (quantize (q (y * w + x))) j := by
    intro j hj
    unfold upd
    by_cases hje : j = y * w + x
    · simp only [hje, if_pos rfl, hpq _ hi]
    · simp only [if_neg hje]
      exact hpq j hj
  have h1 := diffuse1_rel _ _ w h x y _ _ he h0
    (fun hg => idx_lt w h (x + 1) y hg hy)
  intro j hj
  simp only [diffuseAt]
  split_ifs with hy1
  · have h2 := diffuse2_rel _ _ w h x y _ _ he h1
      (fun _ => idx_lt w h (x - 1) (y + 1) (by omega) hy1)
    have h3 := diffuse3_rel _ _ w h x y _ _ he h2 (idx_lt w h x (y + 1) hx hy1)
    have h4 := diffuse4_rel _ _ w h x y _ _ he h3
      (fun hg => idx_lt w h (x + 1) (y + 1) hg hy1)
    exact h4 j hj
  · exact h1 j hj

theorem ditherCols_ext (p q : Nat → Int) (w h y n : Nat) (hn : n ≤ w) (hy : y < h)
    (hpq : ∀ j, j < w * h → p j = q j) :
    ∀ j, j < w * h → ditherCols p w h y n j = ditherCols q w h y n j := by
  induction n with
  | zero => exact hpq
  | succ n ih =>
    simp only [ditherCols]
    exact diffuseAt_rel _ _ w h n y (by omega) hy (ih (by omega))

theorem ditherRows_ext (p q : Nat → Int) (w h m : Nat) (hm : m ≤ h)
    (hpq : ∀ j, j < w * h → p j = q j) :
    ∀ j, j < w * h → ditherRows p w h m j = ditherRows q w h m j := by
  induction m with
  | zero => exact hpq
  | succ m ih =>
    simp only [ditherRows]
    exact ditherCols_ext _ _ w h m w le_rfl (by omega) (ih (by omega))

/-! ## Zero error leaves the buffer fixed -/

theorem diffuse1_zero (p : Nat → Int) (w x y : Nat)
    (hc : x + 1 < w → 0 ≤ p (y * w + (x + 1)) ∧ p (y * w + (x + 1)) ≤ 255) :
    diffuse1 p w x y 0 = p := by
  unfold diffuse1
  split_ifs with hg
  · have hz : Int.tdiv (0 * 7) 16 = 0 := by decide
    rw [hz, add_zero, clampByte_id _ (hc hg).1 (hc hg).2]
    funext j
    unfold upd
    split_ifs with hje
    · rw [hje]
    · rfl
  · rfl

theorem diffuse2_zero (p : Nat → Int) (w x y : Nat)
    (hc : 0 < x → 0 ≤ p ((y + 1) * w + (x - 1)) ∧ p ((y + 1) * w + (x - 1)) ≤ 255) :
    diffuse2 p w x y 0 = p := by
  unfold diffuse2
  split_ifs with hg
  · have hz : Int.tdiv (0 * 3) 16 = 0 := by decide
    rw [hz, add_zero, clampByte_id _ (hc hg).1 (hc hg).2]
    funext j
    unfold upd
    split_ifs with hje
    · rw [hje]
    · rfl
  · rfl

theorem diffuse3_zero (p : Nat → Int) (w x y : Nat)
    (hc : 0 ≤ p ((y + 1) * w + x) ∧ p ((y + 1) * w + x) ≤ 255) :
    diffuse3 p w x y 0 = p := by
  unfold diffuse3
  have hz : Int.tdiv (0 * 5) 16 = 0 := by decide
  rw [hz, add_zero, clampByte_id _ hc.1 hc.2]
  funext j
  unfold upd
  split_ifs with hje
  · rw [hje]
  · rfl

theorem diffuse4_zero (p : Nat → Int) (w x y : Nat)
    (hc : x + 1 < w → 0 ≤ p ((y + 1) * w + (x + 1)) ∧ p ((y + 1) * w + (x + 1)) ≤ 255) :
    diffuse4 p w x y 0 = p := by
  unfold diffuse4
  split_ifs with hg
  · have hz : Int.tdiv (0 * 1) 16 = 0 := by decide
    rw [hz, add_zero, clampByte_id _ (hc hg).1 (hc hg).2]
    funext j
    unfold upd
    split_ifs with hje
    · rw [hje]
    · rfl
  · rfl

/-- On a buffer whose region holds only `0`/`255`, one dithering step
changes nothing: the threshold reproduces the pixel and the diffused
error is zero. -/
theorem diffuseAt_fixed (p : Nat → Int) (w h x y : Nat) (hx : x < w) (hy : y < h)
    (hbin : ∀ j, j < w * h → p j = 0 ∨ p j = 255) :
    diffuseAt p w h x y = p := by
  have hi : y * w + x < w * h := idx_lt w h x y hx hy
  have hbounds : ∀ j, j < w * h → 0 ≤ p j ∧ p j ≤ 255 := by
    intro j hj
    rcases hbin j hj with hv | hv <;> rw [hv] <;> constructor <;> decide
  have hq : quantize (p (y * w + x)) = p (y * w + x) := quantize_fix _ (hbin _ hi)
  have h0 : upd p (y * w + x) (quantize (p (y * w + x))) = p := by
    funext j
    unfold upd
    split_ifs with hje
    · rw [hje, hq]
    · rfl
  have he : p (y * w + x) - quantize (p (y * w + x)) = 0 := by rw [hq]; ring
  simp only [diffuseAt]
  rw [h0, he, diffuse1_zero p w x y (fun hg => hbounds _ (idx_lt w h (x + 1) y hg hy))]
  split_ifs with hy1
  · rw [diffuse2_zero p w x y
        (fun _ => hbounds _ (idx_lt w h (x - 1) (y + 1) (by omega) hy1)),
      diffuse3_zero p w x y (hbounds _ (idx_lt w h x (y + 1) hx hy1)),
      diffuse4_zero p w x y (fun hg => hbounds _ (idx_lt w h (x + 1) (y + 1) hg hy1))]
  · rfl

theorem ditherCols_fixed (p : Nat → Int) (w h y n : Nat) (hn : n ≤ w) (hy : y < h)
    (hbin : ∀ j, j < w * h → p j = 0 ∨ p j = 255) :
    ditherCols p w h y n = p := by
  induction n with
  | zero => rfl
  | succ n ih =>
    have ihe := ih (by omega)
    simp only [ditherCols, ihe]
    exact diffuseAt_fixed p w h n y (by omega) hy hbin

theorem ditherRows_fixed (p : Nat → Int) (w h m : Nat) (hm : m ≤ h)
    (hbin : ∀ j, j < w * h → p j = 0 ∨ p j = 255) :
    ditherRows p w h m = p := by
  induction m with
  | zero => rfl
  | succ m ih =>
    have ihe := ih (by omega)
    simp only [ditherRows, ihe]
    exact ditherCols_fixed p w h m w le_rfl (by omega) hbin

/-! ## Frame and value lemmas for the flush loops -/

theorem drawPixel_untouched (buf : Nat → Nat) (x1 y1 : Int) (w : Nat)
    (bright : Nat → Nat) (x y pos : Nat)
    (H : ¬(0 ≤ x1 + (x : Int) ∧ x1 + (x : Int) < 200 ∧
        0 ≤ y1 + (y : Int) ∧ y1 + (y : Int) < 200 ∧
        pos = ((y1 + (y : Int)) * 200 + (x1 + (x : Int))).toNat)) :
    drawPixel buf x1 y1 w bright x y pos = buf pos := by
  simp only [drawPixel]
  split_ifs with hc
  · exact updN_ne _ _ _ _ (by omega)
  · rfl

theorem drawPixel_at (buf : Nat → Nat) (x1 y1 : Int) (w : Nat)
    (bright : Nat → Nat) (x y : Nat)
    (hin : 0 ≤ x1 + (x : Int) ∧ x1 + (x : Int) < 200 ∧
        0 ≤ y1 + (y : Int) ∧ y1 + (y : Int) < 200) :
    drawPixel buf x1 y1 w bright x y
        (((y1 + (y : Int)) * 200 + (x1 + (x : Int))).toNat) =
      sdl_color (bright (y * w + x) % 256) := by
  simp only [drawPixel]
  rw [if_pos hin]
  exact updN_self _ _ _

theorem drawCols_untouched (buf : Nat → Nat) (x1 y1 : Int) (w : Nat)
    (bright : Nat → Nat) (y n pos : Nat)
    (H : ∀ x, x < n → ¬(0 ≤ x1 + (x : Int) ∧ x1 + (x : Int) < 200 ∧
        0 ≤ y1 + (y : Int) ∧ y1 + (y : Int) < 200 ∧
        pos = ((y1 + (y : Int)) * 200 + (x1 + (x : Int))).toNat)) :
    drawCols buf x1 y1 w bright y n pos = buf pos := by
  induction n with
  | zero => rfl
  | succ n ih =>
    simp only [drawCols]
    rw [drawPixel_untouched _ _ _ _ _ _ _ _ (H n (by omega))]
    exact ih (fun x hx => H x (by omega))

theorem drawRows_untouched (buf : Nat → Nat) (x1 y1 : Int) (w : Nat)
    (bright : Nat → Nat) (m pos : Nat)
    (H : ∀ x y, x < w → y < m → ¬(0 ≤ x1 + (x : Int) ∧ x1 + (x : Int) < 200 ∧
        0 ≤ y1 + (y : Int) ∧ y1 + (y : Int) < 200 ∧
        pos = ((y1 + (y : Int)) * 200 + (x1 + (x : Int))).toNat)) :
    drawRows buf x1 y1 w bright m pos = buf pos := by
  induction m with
  | zero => rfl
  | succ m ih =>
    simp only [drawRows]
    rw [drawCols_untouched _ _ _ _ _ _ _ _
      (fun x hx => H x m hx (by omega))]
    exact ih (fun x y hx hy => H x y hx (by omega))

theorem drawCols_at (buf : Nat → Nat) (x1 y1 : Int) (w : Nat)
    (bright : Nat → Nat) (y n x : Nat) (hx : x < n)
    (hin : 0 ≤ x1 + (x : Int) ∧ x1 + (x : Int) < 200 ∧
        0 ≤ y1 + (y : Int) ∧ y1 + (y : Int) < 200) :
    drawCols buf x1 y1 w bright y n
        (((y1 + (y : Int)) * 200 + (x1 + (x : Int))).toNat) =
      sdl_color (bright (y * w + x) % 256) := by
  induction n with
  | zero => omega
  | succ n ih =>
    simp only [drawCols]
    rcases Nat.lt_or_ge x n with hlt | hge
    · rw [drawPixel_untouched _ _ _ _ _ _ _ _ (by omega)]
      exact ih hlt
    · have hxe : x = n := by omega
      subst hxe
      exact drawPixel_at _ _ _ _ _ _ _ hin

theorem drawRows_at (buf : Nat → Nat) (x1 y1 : Int) (w : Nat)
    (bright : Nat → Nat) (m x y : Nat) (hx : x < w) (hy : y < m)
    (hin : 0 ≤ x1 + (x : Int) ∧ x1 + (x : Int) < 200 ∧
        0 ≤ y1 + (y : Int) ∧ y1 + (y : Int) < 200) :
    drawRows buf x1 y1 w bright m
        (((y1 + (y : Int)) * 200 + (x1 + (x : Int))).toNat) =
      sdl_color (bright (y * w + x) % 256) := by
  induction m with
  | zero => omega
  | succ m ih =>
    simp only [drawRows]
    rcases Nat.lt_or_ge y m with hlt | hge
    · rw [drawCols_untouched _ _ _ _ _ _ _ _ (fun x' hx' => by omega)]
      exact ih hlt
    · have hye : y = m := by omega
      subst hye
      exact drawCols_at _ _ _ _ _ _ _ _ hx hin

/-- Re-running the pixel loop on a buffer that already holds every
value it would write changes nothing. -/
theorem drawCols_stable (buf : Nat → Nat) (x1 y1 : Int) (w : Nat)
    (bright : Nat → Nat) (y n : Nat)
    (H : ∀ x, x < n →
      (0 ≤ x1 + (x : Int) ∧ x1 + (x : Int) < 200 ∧
        0 ≤ y1 + (y : Int) ∧ y1 + (y : Int) < 200) →
      buf (((y1 + (y : Int)) * 200 + (x1 + (x : Int))).toNat) =
        sdl_color (bright (y * w + x) % 256)) :
    ∀ pos, drawCols buf x1 y1 w bright y n pos = buf pos := by
  induction n with
  | zero => intro pos; rfl
  | succ n ih =>
    intro pos
    simp only [drawCols]
    have ihp := ih (fun x hx => H x (by omega))
    simp only [drawPixel]
    split_ifs with hc
    · unfold updN
      split_ifs with hpe
      · rw [hpe, H n (by omega) hc]
      · exact ihp pos
    · exact ihp pos

theorem drawRows_stable (buf : Nat → Nat) (x1 y1 : Int) (w : Nat)
    (bright : Nat → Nat) (m : Nat)
    (H : ∀ x y, x < w → y < m →
      (0 ≤ x1 + (x : Int) ∧ x1 + (x : Int) < 200 ∧
        0 ≤ y1 + (y : Int) ∧ y1 + (y : Int) < 200) →
      buf (((y1 + (y : Int)) * 200 + (x1 + (x : Int))).toNat) =
        sdl_color (bright (y * w + x) % 256)) :
    ∀ pos, drawRows buf x1 y1 w bright m pos = buf pos := by
  induction m with
  | zero => intro pos; rfl
  | succ m ih =>
    intro pos
    simp only [drawRows]
    have ihp := ih (fun x y hx hy hin => H x y hx (by omega) hin)
    rw [drawCols_stable (drawRows buf x1 y1 w bright m) x1 y1 w bright m w
      (fun x hx hin => by rw [ihp]; exact H x m hx (by omega) hin)]
    exact ihp pos

/-- The `uint32_t` dimension computation is the plain difference when
the area is well-formed. -/
theorem uDim_eq (a b : Int) (h1 : 0 ≤ b - a + 1) (h2 : b - a + 1 < 4294967296) :
    uDim a b = (b - a + 1).toNat := by
  unfold uDim
  rw [Int.emod_eq_of_lt h1 h2]

/-! ## Claim theorems -/

/-- Claim C3: for every region `(w, h)` and every input buffer, after
`dither_image` runs, every entry of the region holds `0` or `255`; and
the value stored for a pixel at the moment it is processed is the
threshold of its current (error-accumulated) value: `0` when it is
below `128`, `255` otherwise. -/
theorem dither_image_output_binary (p : Nat → Int) (w h : Nat) :
    (∀ j, j < w * h →
      dither_image p w h j = 0 ∨ dither_image p w h j = 255) ∧
    (∀ (q : Nat → Int) (x y : Nat), x < w →
      diffuseAt q w h x y (y * w + x) = quantize (q (y * w + x))) := by
  constructor
  · intro j hj
    have hcomm : h * w = w * h := Nat.mul_comm h w
    exact ditherRows_binary p w h h j (by omega)
  · intro q x y hx
    exact diffuseAt_at_i q w h x y hx

theorem dither_image_output_binary_witness :
    (3 < 2 * 2 ∧
      (dither_image rowC 2 2 3 = 0 ∨ dither_image rowC 2 2 3 = 255)) ∧
    (1 < 2 ∧ diffuseAt rowC 2 2 1 1 (1 * 2 + 1) = quantize (rowC (1 * 2 + 1))) :=
  ⟨⟨by decide, (dither_image_output_binary rowC 2 2).1 3 (by decide)⟩,
   ⟨by decide, (dither_image_output_binary rowC 2 2).2 rowC 1 1 (by decide)⟩⟩

/-- Claim C4: a pixel's rounding error `error = old − quantize old` is
diffused to its four in-region unprocessed neighbours with the
Floyd–Steinberg weights 7⁄16 to `(x+1,y)`, 3⁄16 to `(x−1,y+1)`, 5⁄16
to `(x,y+1)` and 1⁄16 to `(x+1,y+1)` — computed as `error * k / 16`
in C's truncating integer arithmetic — and each target pixel is
clamped to `[0, 255]` after the accumulation. -/
theorem dither_error_weights (p : Nat → Int) (w h x y : Nat)
    (hx0 : 0 < x) (hx1 : x + 1 < w) (hy1 : y + 1 < h) :
    diffuseAt p w h x y (y * w + (x + 1)) =
      clampByte (p (y * w + (x + 1)) +
        Int.tdiv ((p (y * w + x) - quantize (p (y * w + x))) * 7) 16) ∧
    diffuseAt p w h x y ((y + 1) * w + (x - 1)) =
      clampByte (p ((y + 1) * w + (x - 1)) +
        Int.tdiv ((p (y * w + x) - quantize (p (y * w + x))) * 3) 16) ∧
    diffuseAt p w h x y ((y + 1) * w + x) =
      clampByte (p ((y + 1) * w + x) +
        Int.tdiv ((p (y * w + x) - quantize (p (y * w + x))) * 5) 16) ∧
    diffuseAt p w h x y ((y + 1) * w + (x + 1)) =
      clampByte (p ((y + 1) * w + (x + 1)) +
        Int.tdiv ((p (y * w + x) - quantize (p (y * w + x))) * 1) 16) := by
  have hd : (y + 1) * w = y * w + w := by ring
  refine ⟨?_, ?_, ?_, ?_⟩
  · simp only [diffuseAt]
    rw [if_pos hy1, diffuse4_ne, diffuse3_ne, diffuse2_ne,
      diffuse1_eq _ _ _ _ _ hx1, upd_ne] <;> (intros; omega)
  · simp only [diffuseAt]
    rw [if_pos hy1, diffuse4_ne, diffuse3_ne, diffuse2_eq _ _ _ _ _ hx0,
      diffuse1_ne, upd_ne] <;> (intros; omega)
  · simp only [diffuseAt]
    rw [if_pos hy1, diffuse4_ne, diffuse3_eq, diffuse2_ne,
      diffuse1_ne, upd_ne] <;> (intros; omega)
  · simp only [diffuseAt]
    rw [if_pos hy1, diffuse4_eq _ _ _ _ _ hx1, diffuse3_ne, diffuse2_ne,
      diffuse1_ne, upd_ne] <;> (intros; omega)

theorem dither_error_weights_witness :
    0 < 1 ∧ 1 + 1 < 3 ∧ 0 + 1 < 2 ∧
    diffuseAt rowC 3 2 1 0 (0 * 3 + (1 + 1)) =
      clampByte (rowC (0 * 3 + (1 + 1)) +
        Int.tdiv ((rowC (0 * 3 + 1) - quantize (rowC (0 * 3 + 1))) * 7) 16) :=
  ⟨by decide, by decide, by decide,
   (dither_error_weights rowC 3 2 1 0 (by decide) (by decide) (by decide)).1⟩

/-- Claim C5: quantization error never leaves the region.  (a) No
buffer entry at or beyond `w*h` is written by `dither_image`; (b) the
output inside the region depends only on the buffer contents inside
the region, so nothing outside it is read into the result; (c)
processing a last-column pixel touches nothing but its own index and
its two in-region below-row neighbours — the right-edge 7⁄16 share is
discarded, not wrapped to the next row; (d) processing a last-row
pixel touches nothing but its own index and its right neighbour — the
bottom-edge error is discarded; (e) processing a left-column pixel
(`x = 0`) touches nothing but its own index, its right neighbour and
its below / below-right neighbours: the `x > 0` guard of app_hal.c:54
discards the 3⁄16 left-below share, so it is never wrapped to flat
index `(y+1)*w − 1`, the current row's still-unprocessed last
pixel. -/
theorem dither_region_containment (p : Nat → Int) (w h : Nat) :
    (∀ j, w * h ≤ j → dither_image p w h j = p j) ∧
    (∀ q : Nat → Int, (∀ j, j < w * h → p j = q j) →
      ∀ j, j < w * h → dither_image p w h j = dither_image q w h j) ∧
    (∀ (q : Nat → Int) (y j : Nat), j ≠ y * w + (w - 1) →
      j ≠ (y + 1) * w + (w - 2) → j ≠ (y + 1) * w + (w - 1) →
      diffuseAt q w h (w - 1) y j = q j) ∧
    (∀ (q : Nat → Int) (x j : Nat), j ≠ (h - 1) * w + x →
      j ≠ (h - 1) * w + (x + 1) →
      diffuseAt q w h x (h - 1) j = q j) ∧
    (∀ (q : Nat → Int) (y j : Nat), j ≠ y * w → j ≠ y * w + 1 →
      j ≠ (y + 1) * w → j ≠ (y + 1) * w + 1 →
      diffuseAt q w h 0 y j = q j) := by
  refine ⟨?_, ?_, ?_, ?_, ?_⟩
  · intro j hj
    exact ditherRows_ge p w h h le_rfl j hj
  · intro q hpq
    exact ditherRows_ext p q w h h le_rfl hpq
  · intro q y j hj1 hj2 hj3
    exact diffuseAt_untouched q w h (w - 1) y j hj1 (by omega) (by omega)
      (by omega) (by omega)
  · intro q x j hj1 hj2
    exact diffuseAt_untouched q w h x (h - 1) j hj1 (by omega) (by omega)
      (by omega) (by omega)
  · intro q y j hj1 hj2 hj3 hj4
    exact diffuseAt_untouched q w h 0 y j (by omega) (by omega) (by omega)
      (by omega) (by omega)

theorem dither_region_containment_witness :
    dither_image rowC 5 1 7 = rowC 7 ∧
    dither_image rowC 5 1 2 =
      dither_image (fun j => if j < 5 then rowC j else 999) 5 1 2 ∧
    diffuseAt rowC 5 1 (5 - 1) 0 2 = rowC 2 ∧
    diffuseAt rowC 5 1 2 (1 - 1) 1 = rowC 1 ∧
    diffuseAt rowC 5 2 0 0 4 = rowC 4 :=
  ⟨(dither_region_containment rowC 5 1).1 7 (by decide),
   (dither_region_containment rowC 5 1).2.1 _ (by decide) 2 (by decide),
   (dither_region_containment rowC 5 1).2.2.1 rowC 0 2 (by decide) (by decide)
     (by decide),
   (dither_region_containment rowC 5 1).2.2.2.1 rowC 2 1 (by decide) (by decide),
   (dither_region_containment rowC 5 2).2.2.2.2 rowC 0 4 (by decide) (by decide)
     (by decide) (by decide)⟩

/-- Claim C6 (counterexample to the claim as stated): on the 1×5 row
`[0, 64, 128, 192, 255]`, pixel 0 quantizes exactly — its rounding
error is `0`, not `−64` — and the 64-value pixel dithers to `0`,
which is the same value pure thresholding gives, not a different
one. -/
theorem dither_scenarioC_counterexample :
    rowC 0 - quantize (rowC 0) = 0 ∧
    dither_image rowC 5 1 1 = 0 ∧
    quantize (rowC 1) = 0 := by
  refine ⟨by decide, by decide, by decide⟩

/-- Claim C6 (amended): Floyd–Steinberg on the 1×5 row
`[0, 64, 128, 192, 255]` deterministically produces the 0/255 sequence
`[0, 0, 255, 255, 255]`, which coincides with pure thresholding at
every pixel of this row: pixel 0's rounding error is zero, so the
64-value pixel carries no error into its threshold decision. -/
theorem dither_scenarioC_pinned :
    dither_image rowC 5 1 0 = 0 ∧ dither_image rowC 5 1 1 = 0 ∧
    dither_image rowC 5 1 2 = 255 ∧ dither_image rowC 5 1 3 = 255 ∧
    dither_image rowC 5 1 4 = 255 ∧
    quantize (rowC 0) = 0 ∧ quantize (rowC 1) = 0 ∧
    quantize (rowC 2) = 255 ∧ quantize (rowC 3) = 255 ∧
    quantize (rowC 4) = 255 ∧
    rowC 0 - quantize (rowC 0) = 0 := by
  refine ⟨by decide, by decide, by decide, by decide, by decide, by decide,
    by decide, by decide, by decide, by decide, by decide⟩

/-- Claim C8: quantization is idempotent on already-binary data: on a
region holding only the values `0` and `255`, `dither_image` returns
the buffer unchanged (every per-pixel error is zero), and the
threshold itself fixes `0` and `255`. -/
theorem dither_idempotent_on_binary (p : Nat → Int) (w h : Nat)
    (hbin : ∀ j, j < w * h → p j = 0 ∨ p j = 255) :
    (∀ j, dither_image p w h j = p j) ∧
    (∀ v : Int, (v = 0 ∨ v = 255) → quantize v = v) := by
  constructor
  · intro j
    have hfix := ditherRows_fixed p w h h le_rfl hbin
    simp only [dither_image, hfix]
  · exact fun v hv => quantize_fix v hv

theorem dither_idempotent_on_binary_witness :
    (∀ j, j < 2 * 2 → binMix j = 0 ∨ binMix j = 255) ∧
    (∀ j, dither_image binMix 2 2 j = binMix j) :=
  ⟨by decide, (dither_idempotent_on_binary binMix 2 2 (by decide)).1⟩

/-- Claim C9: `dither_image` is deterministic and depends on nothing
outside the given region: two runs on buffers that agree on the
`w*h`-pixel region produce equal outputs on the whole region. -/
theorem dither_image_deterministic (p q : Nat → Int) (w h : Nat)
    (hpq : ∀ j, j < w * h → p j = q j) :
    ∀ j, j < w * h → dither_image p w h j = dither_image q w h j :=
  ditherRows_ext p q w h h le_rfl hpq

theorem dither_image_deterministic_witness :
    dither_image rowC 5 1 3 =
      dither_image (fun j => if j < 5 then rowC j else 777) 5 1 3 :=
  dither_image_deterministic rowC _ 5 1 (by decide) 3 (by decide)

/-- Claim C1: every call to `flush_cb` — the normal draw path, the
invalid-dimensions path, the NULL-pixel-buffer path and the
texture-update-failure path — calls `lv_disp_flush_ready` exactly
once before returning. -/
theorem flush_cb_ready_exactly_once (bufNull : Bool) (buf : Nat → Nat)
    (texOk : Bool) (x1 y1 x2 y2 : Int) (bright : Nat → Nat) :
    (flush_cb bufNull buf texOk x1 y1 x2 y2 bright).ready = 1 := by
  simp only [flush_cb]
  split_ifs <;> rfl

/-- Claim C7: on every flush call, pixels of the area whose global
panel coordinates fall outside the 200×200 panel are skipped: a
position of the panel-wide buffer is written only if it is the target
of some in-area pixel that passes the bounds check, and the flush
still completes with exactly one acknowledgement. -/
theorem flush_cb_clips_to_panel (bufNull : Bool) (buf : Nat → Nat)
    (texOk : Bool) (x1 y1 x2 y2 : Int) (bright : Nat → Nat) :
    (flush_cb bufNull buf texOk x1 y1 x2 y2 bright).ready = 1 ∧
    ∀ pos, (∀ x y, x < uDim x1 x2 → y < uDim y1 y2 →
        ¬(0 ≤ x1 + (x : Int) ∧ x1 + (x : Int) < 200 ∧
          0 ≤ y1 + (y : Int) ∧ y1 + (y : Int) < 200 ∧
          pos = ((y1 + (y : Int)) * 200 + (x1 + (x : Int))).toNat)) →
      (flush_cb bufNull buf texOk x1 y1 x2 y2 bright).buffer pos = buf pos := by
  constructor
  · simp only [flush_cb]
    split_ifs <;> rfl
  · intro pos hpos
    simp only [flush_cb]
    split_ifs
    · rfl
    · rfl
    · exact drawRows_untouched buf x1 y1 (uDim x1 x2) bright (uDim y1 y2) pos hpos
    · exact drawRows_untouched buf x1 y1 (uDim x1 x2) bright (uDim y1 y2) pos hpos

theorem flush_cb_clips_to_panel_witness :
    (flush_cb false (fun _ => 0) true 190 0 209 0 (fun _ => 7)).ready = 1 ∧
    (flush_cb false (fun _ => 0) true 190 0 209 0 (fun _ => 7)).buffer 5 = 0 :=
  ⟨(flush_cb_clips_to_panel false (fun _ => 0) true 190 0 209 0 (fun _ => 7)).1,
   (flush_cb_clips_to_panel false (fun _ => 0) true 190 0 209 0 (fun _ => 7)).2 5
     (by intro x y hx hy; simp only [uDim] at hx hy; omega)⟩

/-- Claim C10: flushing a valid in-bounds area modifies only the
rectangle `[x1..x2] × [y1..y2]`: every buffer position whose panel
coordinates `(pos % 200, pos / 200)` lie outside the flushed
rectangle keeps its previous value. -/
theorem flush_cb_outside_area_unchanged (bufNull : Bool) (buf : Nat → Nat)
    (texOk : Bool) (x1 y1 x2 y2 : Int) (bright : Nat → Nat)
    (h1 : 0 ≤ x1) (h2 : x1 ≤ x2) (h3 : x2 < 200)
    (h4 : 0 ≤ y1) (h5 : y1 ≤ y2) (h6 : y2 < 200) :
    ∀ pos, (((pos % 200 : Nat) : Int) < x1 ∨ x2 < ((pos % 200 : Nat) : Int) ∨
        ((pos / 200 : Nat) : Int) < y1 ∨ y2 < ((pos / 200 : Nat) : Int)) →
      (flush_cb bufNull buf texOk x1 y1 x2 y2 bright).buffer pos = buf pos := by
  intro pos hout
  have hw : uDim x1 x2 = (x2 - x1 + 1).toNat := uDim_eq x1 x2 (by omega) (by omega)
  have hh : uDim y1 y2 = (y2 - y1 + 1).toNat := uDim_eq y1 y2 (by omega) (by omega)
  simp only [flush_cb]
  split_ifs
  · rfl
  · rfl
  · refine drawRows_untouched buf x1 y1 (uDim x1 x2) bright (uDim y1 y2) pos ?_
    rintro x y hx hy ⟨ha, hb, hc, hd, he⟩
    rw [hw] at hx
    rw [hh] at hy
    omega
  · refine drawRows_untouched buf x1 y1 (uDim x1 x2) bright (uDim y1 y2) pos ?_
    rintro x y hx hy ⟨ha, hb, hc, hd, he⟩
    rw [hw] at hx
    rw [hh] at hy
    omega

theorem flush_cb_outside_area_unchanged_witness :
    (((0 % 200 : Nat) : Int) < 10 ∨ (19 : Int) < ((0 % 200 : Nat) : Int) ∨
      ((0 / 200 : Nat) : Int) < 10 ∨ (19 : Int) < ((0 / 200 : Nat) : Int)) ∧
    (flush_cb false (fun _ => 3) true 10 10 19 19 (fun _ => 0)).buffer 0 = 3 :=
  ⟨by decide,
   flush_cb_outside_area_unchanged false (fun _ => 3) true 10 10 19 19
     (fun _ => 0) (by decide) (by decide) (by decide) (by decide) (by decide)
     (by decide) 0 (by decide)⟩

/-- Claim C2 (counterexample to the claim as stated): flushing the
identical 1×1 region with identical pixel data twice in succession,
the second call still invokes the display adapter — its
`SDL_UpdateTexture` count is `1`, not the claimed `0`; `flush_cb` has
no change tracking or refresh decision at all. -/
theorem flush_repeat_counterexample :
    (flush_cb false
        (flush_cb false (fun _ => 0) true 0 0 0 0 (fun _ => 0)).buffer
        true 0 0 0 0 (fun _ => 0)).texUpdates = 1 := by
  decide

/-- Claim C2 (amended): `flush_cb` performs no change detection:
flushing the identical in-bounds region and pixel data twice invokes
the display adapter (`SDL_UpdateTexture` then `SDL_RenderPresent`)
exactly once on the second call as well — not zero times — although
the second call leaves every pixel of the buffer unchanged, so the
repeat is only a redundant re-upload, not a visual change. -/
theorem flush_repeat_no_suppression (buf : Nat → Nat) (x1 y1 x2 y2 : Int)
    (bright : Nat → Nat)
    (h1 : 0 ≤ x1) (h2 : x1 ≤ x2) (h3 : x2 < 200)
    (h4 : 0 ≤ y1) (h5 : y1 ≤ y2) (h6 : y2 < 200) :
    (flush_cb false (flush_cb false buf true x1 y1 x2 y2 bright).buffer
        true x1 y1 x2 y2 bright).texUpdates = 1 ∧
    (flush_cb false (flush_cb false buf true x1 y1 x2 y2 bright).buffer
        true x1 y1 x2 y2 bright).presents = 1 ∧
    ∀ pos,
      (flush_cb false (flush_cb false buf true x1 y1 x2 y2 bright).buffer
          true x1 y1 x2 y2 bright).buffer pos =
        (flush_cb false buf true x1 y1 x2 y2 bright).buffer pos := by
  have hw : uDim x1 x2 = (x2 - x1 + 1).toNat := uDim_eq x1 x2 (by omega) (by omega)
  have hh : uDim y1 y2 = (y2 - y1 + 1).toNat := uDim_eq y1 y2 (by omega) (by omega)
  have hvalid : ¬(uDim x1 x2 = 0 ∨ uDim y1 y2 = 0 ∨
      200 < uDim x1 x2 ∨ 200 < uDim y1 y2) := by
    rw [hw, hh]
    omega
  have e1 : ∀ b : Nat → Nat, flush_cb false b true x1 y1 x2 y2 bright =
      { buffer := drawRows b x1 y1 (uDim x1 x2) bright (uDim y1 y2),
        ready := 1, texUpdates := 1, presents := 1 } := by
    intro b
    simp only [flush_cb]
    rw [if_neg hvalid]
    rfl
  refine ⟨?_, ?_, ?_⟩
  · rw [e1]
  · rw [e1]
  · intro pos
    rw [e1 buf, e1 (drawRows buf x1 y1 (uDim x1 x2) bright (uDim y1 y2))]
    exact drawRows_stable (drawRows buf x1 y1 (uDim x1 x2) bright (uDim y1 y2))
      x1 y1 (uDim x1 x2) bright (uDim y1 y2)
      (fun x y hx hy hin =>
        drawRows_at buf x1 y1 (uDim x1 x2) bright (uDim y1 y2) x y hx hy hin)
      pos

theorem flush_repeat_no_suppression_witness :
    (flush_cb false
        (flush_cb false (fun _ => 9) true 0 0 1 1 (fun _ => 3)).buffer
        true 0 0 1 1 (fun _ => 3)).texUpdates = 1 ∧
    (flush_cb false
        (flush_cb false (fun _ => 9) true 0 0 1 1 (fun _ => 3)).buffer
        true 0 0 1 1 (fun _ => 3)).presents = 1 ∧
    ∀ pos,
      (flush_cb false
          (flush_cb false (fun _ => 9) true 0 0 1 1 (fun _ => 3)).buffer
          true 0 0 1 1 (fun _ => 3)).buffer pos =
        (flush_cb false (fun _ => 9) true 0 0 1 1 (fun _ => 3)).buffer pos :=
  flush_repeat_no_suppression (fun _ => 9) 0 0 1 1 (fun _ => 3)
    (by decide) (by decide) (by decide) (by decide) (by decide) (by decide)
